import Mathlib

/-!
# Verification of the ConfigureMacKeys line-patching algorithm

Shallow embedding of `src/configkeys.py` (class `MacEnvManager`).  File
content is modelled as a `List Char` (the text-mode character stream);
`readlines` models Python's `f.readlines()` splitting on `'\n'` and
keeping the terminator with each line; `strip` models `str.strip()`
restricted to ASCII whitespace (both the code's filter and every claim
use the same predicate, so the restriction is uniform).  Filesystem and
process effects are modelled by an explicit `World` record of flags
(file existence, read/backup/write success) and an `OpResult` record
reporting which effects an operation attempted.
-/

namespace ConfigureMacKeys

abbrev Chars := List Char

/-- ASCII whitespace, the characters `str.strip()` removes on ASCII text. -/
def isSpaceChar (c : Char) : Bool :=
  c = ' ' || c = '\t' || c = '\n' || c = '\r' || c = '\x0b' || c = '\x0c'

/-- Remove leading whitespace (left half of Python `str.strip()`). -/
def stripLeft : Chars → Chars
  | [] => []
  | c :: cs => if isSpaceChar c then stripLeft cs else c :: cs

/-- Remove trailing whitespace (right half of Python `str.strip()`). -/
def stripRight (l : Chars) : Chars :=
  (stripLeft l.reverse).reverse

/-- Python `str.strip()`: remove leading and trailing whitespace. -/
def strip (l : Chars) : Chars :=
  stripRight (stripLeft l)

/-- Python `f.readlines()`: split the character stream after every `'\n'`,
keeping the terminator with its line; a final terminator-less segment is
kept as the last element; an empty stream gives no lines. -/
def readlines : Chars → List Chars
  | [] => []
  | c :: cs =>
    if c = '\n' then ['\n'] :: readlines cs
    else
      match readlines cs with
      | [] => [[c]]
      | l :: ls => (c :: l) :: ls

/-- Python's `sub in s` on strings: `sub` occurs contiguously in `s`. -/
def isSubstr (sub : Chars) : Chars → Bool
  | [] => sub.isEmpty
  | c :: cs => sub.isPrefixOf (c :: cs) || isSubstr sub cs

/-- Drop a trailing `'\n'` if present: the text of a physical line. -/
def chomp (l : Chars) : Chars :=
  if l.getLast? = some '\n' then l.dropLast else l

/-- The textual lines of a file content (line terminators removed). -/
def lineTexts (c : Chars) : List Chars :=
  (readlines c).map chomp

/-- The sentinel comment text `# Added by ConfigureMacKeys` (source line 108). -/
def markerText : Chars := "# Added by ConfigureMacKeys".data

/-- `comment_line = "# Added by ConfigureMacKeys\n"` (source line 108). -/
def commentLine : Chars := markerText ++ ['\n']

/-- `pattern = f"export {name}="` (source lines 102 and 145). -/
def pattern (name : Chars) : Chars :=
  "export ".data ++ name ++ ['=']

/-- `export_line = f"export {name}={value}\n"` (source line 101). -/
def exportLine (name value : Chars) : Chars :=
  pattern name ++ value ++ ['\n']

/-- `line.strip().startswith(pattern)` (source lines 105 and 149):
the line declares the variable `name`. -/
def declares (name l : Chars) : Bool :=
  (pattern name).isPrefixOf (strip l)

/-- `"# Added by ConfigureMacKeys" in line` (source line 109). -/
def hasMarker (l : Chars) : Bool :=
  isSubstr markerText l

/-- External state and fault model for one operation: the config file's
existence and content, and whether each kind of I/O would succeed. -/
structure World where
  fileExists : Bool
  content : Chars
  readOk : Bool
  backupOk : Bool
  writeOk : Bool
  deriving DecidableEq

/-- Which console outcome a run of an operation reports. -/
inductive Outcome where
  | ok
  | emptyName
  | noFile
  | notFound
  | writeError
  deriving DecidableEq

/-- Observable result of one operation: status, which effects were
attempted, and the file content afterwards. -/
structure OpResult where
  success : Bool
  outcome : Outcome
  readAttempted : Bool
  backupAttempted : Bool
  wrote : Bool
  newContent : Chars
  deriving DecidableEq

/-- The character stream a read of the config file yields: empty when the
file is absent, and also when the read raises (`get_shell_config_content`
catches the exception and returns `[]`, source lines 52-65). -/
def effContent (w : World) : Chars :=
  if w.fileExists && w.readOk then w.content else []

/-- `get_shell_config_content` (source lines 52-65): the line list the
mutating operations start from. -/
def get_shell_config_content (w : World) : List Chars :=
  readlines (effContent w)

/-- `backup_config_file` (source lines 67-77): copies the file if it
exists; reports `False` only when the copy raises. -/
def backup_config_file (w : World) : Bool :=
  if w.fileExists then w.backupOk else true

/-- `set_env_var` (source lines 79-131).  `permanent := false` is the
`--temp` branch that only prints an export command.  The permanent branch
reads the file, makes a best-effort backup, drops every line whose
stripped text starts with `export <name>=`, appends `"\n" + comment_line`
when no remaining line contains the marker text, appends the new export
line, and writes the result. -/
def set_env_var (w : World) (name value : Chars) (permanent : Bool := true) :
    OpResult :=
  if name = [] then
    { success := false, outcome := .emptyName, readAttempted := false,
      backupAttempted := false, wrote := false, newContent := w.content }
  else if !permanent then
    { success := true, outcome := .ok, readAttempted := false,
      backupAttempted := false, wrote := false, newContent := w.content }
  else
    let lines0 := get_shell_config_content w
    let lines1 := lines0.filter (fun l => !declares name l)
    let lines2 :=
      if lines1.any hasMarker then lines1 else lines1 ++ [('\n' :: commentLine)]
    let lines3 := lines2 ++ [exportLine name value]
    if w.writeOk then
      { success := true, outcome := .ok, readAttempted := true,
        backupAttempted := true, wrote := true, newContent := lines3.flatten }
    else
      { success := false, outcome := .writeError, readAttempted := true,
        backupAttempted := true, wrote := false, newContent := w.content }

/-- `remove_env_var` (source lines 133-171): fails at once when the read
yields no lines; otherwise makes a best-effort backup, drops every line
whose stripped text starts with `export <name>=`, fails without writing
when nothing was dropped, and writes the filtered lines otherwise. -/
def remove_env_var (w : World) (name : Chars) : OpResult :=
  let lines0 := get_shell_config_content w
  if lines0 = [] then
    { success := false, outcome := .noFile, readAttempted := true,
      backupAttempted := false, wrote := false, newContent := w.content }
  else
    let lines1 := lines0.filter (fun l => !declares name l)
    if lines1.length = lines0.length then
      { success := false, outcome := .notFound, readAttempted := true,
        backupAttempted := true, wrote := false, newContent := w.content }
    else if w.writeOk then
      { success := true, outcome := .ok, readAttempted := true,
        backupAttempted := true, wrote := true, newContent := lines1.flatten }
    else
      { success := false, outcome := .writeError, readAttempted := true,
        backupAttempted := true, wrote := false, newContent := w.content }

/-- Advance the world by one permanent `set_env_var` call: the file holds
the resulting content, and exists as soon as a write happened. -/
def stepSet (w : World) (nv : Chars × Chars) : World :=
  let r := set_env_var w nv.1 nv.2
  { w with fileExists := w.fileExists || r.wrote, content := r.newContent }

/-- Run a sequence of permanent `set_env_var` calls. -/
def runSets (w : World) : List (Chars × Chars) → World
  | [] => w
  | nv :: rest => runSets (stepSet w nv) rest

/-- Python `filter_pattern.lower() in k.lower()` (source lines 32-33),
restricted to the per-character lowering of `Char.toLower`. -/
def keyMatches (filt k : String) : Bool :=
  isSubstr (filt.data.map Char.toLower) (k.data.map Char.toLower)

/-- Display truncation of `list_env_vars` (source line 49): values longer
than 100 characters show as their first 97 characters plus `"..."`. -/
def displayValue (v : String) : String :=
  if v.length ≤ 100 then v else v.take 97 ++ "..."

/-- `list_env_vars` (source lines 27-50), as the sequence of
`(key, value)` pairs it prints: filter the environment snapshot by the
optional pattern, then emit pairs following the sorted key order. -/
def list_env_vars (env : List (String × String)) (filt : Option String) :
    List (String × String) :=
  let filtered :=
    match filt with
    | some p => env.filter (fun kv : String × String => keyMatches p kv.1)
    | none => env
  ((filtered.map Prod.fst).mergeSort).map
    (fun k => (k, ((filtered.lookup k).getD "")))

/-- A fault-free world in which the config file exists with content `c`. -/
def okWorld (c : Chars) : World :=
  { fileExists := true, content := c, readOk := true, backupOk := true,
    writeOk := true }

/-- A fault-free world in which the config file does not exist. -/
def absentWorld : World :=
  { fileExists := false, content := [], readOk := true, backupOk := true,
    writeOk := true }

/-- The content ends with a line terminator (or is empty): every physical
line of it is then `'\n'`-terminated. -/
def endsNL (c : Chars) : Prop :=
  c = [] ∨ c.getLast? = some '\n'

instance (c : Chars) : Decidable (endsNL c) := by
  unfold endsNL; infer_instance

/-- A single `'\n'`-terminated physical line. -/
def IsNLLine (l : Chars) : Prop :=
  ∃ m, '\n' ∉ m ∧ l = m ++ ['\n']

/-- A single physical line: `'\n'`-terminated, or terminator-free and
nonempty (the final partial line of a file). -/
def IsLineElem (l : Chars) : Prop :=
  IsNLLine l ∨ ('\n' ∉ l ∧ l ≠ [])

/-! ### Basic facts about `strip` -/

theorem stripLeft_append (a b : Chars) :
    stripLeft (a ++ b) =
      if stripLeft a = [] then stripLeft b else stripLeft a ++ b := by
  induction a with
  | nil => simp [stripLeft]
  | cons c cs ih =>
      by_cases h : isSpaceChar c = true
      · simpa [stripLeft, h] using ih
      · simp [stripLeft, h]

theorem stripRight_concat_of_space (a : Chars) (c : Char)
    (h : isSpaceChar c = true) : stripRight (a ++ [c]) = stripRight a := by
  simp [stripRight, stripLeft, h]

theorem stripRight_concat_newline (a : Chars) :
    stripRight (a ++ ['\n']) = stripRight a :=
  stripRight_concat_of_space a '\n' (by decide)

theorem strip_concat_newline (m : Chars) : strip (m ++ ['\n']) = strip m := by
  unfold strip
  rw [stripLeft_append]
  by_cases h : stripLeft m = []
  · rw [if_pos h, h]
    rfl
  · rw [if_neg h, stripRight_concat_newline]

theorem chomp_concat_newline (m : Chars) : chomp (m ++ ['\n']) = m := by
  simp [chomp]

theorem chomp_eq_or (l : Chars) : chomp l = l ∨ l = chomp l ++ ['\n'] := by
  by_cases h : l.getLast? = some '\n'
  · right
    rcases l.eq_nil_or_concat with rfl | ⟨a, c, rfl⟩
    · simp at h
    · rw [List.concat_eq_append] at h ⊢
      have hc : c = '\n' := by
        rw [List.getLast?_concat] at h
        exact Option.some.inj h
      subst hc
      rw [chomp, if_pos h, List.dropLast_concat]
  · left
    rw [chomp, if_neg h]

theorem strip_chomp (l : Chars) : strip (chomp l) = strip l := by
  rcases chomp_eq_or l with h | h
  · rw [h]
  · conv_rhs => rw [h]
    rw [strip_concat_newline]

/-! ### Basic facts about `readlines` -/

theorem readlines_nil : readlines [] = [] := rfl

theorem readlines_eq_nil_iff (c : Chars) : readlines c = [] ↔ c = [] := by
  constructor
  · intro h
    cases c with
    | nil => rfl
    | cons x cs =>
        by_cases hx : x = '\n'
        · simp [readlines, hx] at h
        · simp only [readlines, if_neg hx] at h
          cases hrec : readlines cs <;> simp [hrec] at h
  · intro h; simp [h, readlines]

theorem flatten_readlines (c : Chars) : (readlines c).flatten = c := by
  induction c with
  | nil => rfl
  | cons x cs ih =>
      by_cases hx : x = '\n'
      · simp [readlines, hx, ih]
      · simp only [readlines, if_neg hx]
        cases hrec : readlines cs with
        | nil =>
            have : cs = [] := (readlines_eq_nil_iff cs).1 hrec
            simp [this]
        | cons l ls =>
            rw [hrec] at ih
            simpa using ih

theorem readlines_line_append (m r : Chars) (h : '\n' ∉ m) :
    readlines (m ++ '\n' :: r) = (m ++ ['\n']) :: readlines r := by
  induction m with
  | nil => simp [readlines]
  | cons c cs ih =>
      have hc : c ≠ '\n' := fun hc => h (hc ▸ List.mem_cons_self c cs)
      have hcs : '\n' ∉ cs := fun hm => h (List.mem_cons_of_mem c hm)
      simp only [List.cons_append, readlines, if_neg hc, List.append_eq]
      rw [ih hcs]

theorem readlines_concat_newline (m : Chars) (h : '\n' ∉ m) :
    readlines (m ++ ['\n']) = [m ++ ['\n']] := by
  simpa using readlines_line_append m [] h

theorem readlines_no_newline (m : Chars) (h : '\n' ∉ m) (hm : m ≠ []) :
    readlines m = [m] := by
  induction m with
  | nil => exact absurd rfl hm
  | cons c cs ih =>
      have hc : c ≠ '\n' := fun hc => h (hc ▸ List.mem_cons_self c cs)
      have hcs : '\n' ∉ cs := fun hmem => h (List.mem_cons_of_mem c hmem)
      by_cases hcs0 : cs = []
      · simp [hcs0, readlines, hc]
      · simp [readlines, hc, ih hcs hcs0]

theorem readlines_of_isLineElem (l : Chars) (h : IsLineElem l) :
    readlines l = [l] := by
  rcases h with ⟨m, hm, rfl⟩ | ⟨hnl, hne⟩
  · exact readlines_concat_newline m hm
  · exact readlines_no_newline l hnl hne

theorem readlines_flatten_append (L : List Chars) (r : Chars)
    (hL : ∀ l ∈ L, IsNLLine l) :
    readlines (L.flatten ++ r) = L ++ readlines r := by
  induction L with
  | nil => simp
  | cons l ls ih =>
      obtain ⟨m, hm, rfl⟩ := hL l (List.mem_cons_self l ls)
      have hrest := ih (fun x hx => hL x (List.mem_cons_of_mem _ hx))
      have harg : ((m ++ ['\n']) :: ls).flatten ++ r =
          m ++ '\n' :: (ls.flatten ++ r) := by
        simp
      rw [harg, readlines_line_append m (ls.flatten ++ r) hm, hrest]
      simp

theorem isNLLine_cons (c : Char) (l : Chars) (hc : c ≠ '\n')
    (h : IsNLLine l) : IsNLLine (c :: l) := by
  obtain ⟨m, hm, rfl⟩ := h
  exact ⟨c :: m, by simp [hm, Ne.symm hc], rfl⟩

theorem isLineElem_cons (c : Char) (l : Chars) (hc : c ≠ '\n')
    (h : IsLineElem l) : IsLineElem (c :: l) := by
  rcases h with h | ⟨hnl, _⟩
  · exact Or.inl (isNLLine_cons c l hc h)
  · exact Or.inr ⟨by simp [hnl, Ne.symm hc], by simp⟩

theorem readlines_struct (c : Chars) :
    (∀ l ∈ readlines c, IsLineElem l) ∧
      ∀ l ∈ (readlines c).dropLast, IsNLLine l := by
  induction c with
  | nil => simp [readlines]
  | cons x cs ih =>
      obtain ⟨ih1, ih2⟩ := ih
      by_cases hx : x = '\n'
      · subst hx
        have hrw : readlines ('\n' :: cs) = ['\n'] :: readlines cs := by
          simp [readlines]
        rw [hrw]
        constructor
        · intro l hl
          rcases List.mem_cons.1 hl with rfl | hl
          · exact Or.inl ⟨[], by simp, rfl⟩
          · exact ih1 l hl
        · intro l hl
          cases hcs : readlines cs with
          | nil => rw [hcs] at hl; simp at hl
          | cons y ys =>
              rw [hcs, List.dropLast_cons_of_ne_nil (by simp)] at hl
              rcases List.mem_cons.1 hl with rfl | hl
              · exact ⟨[], by simp, rfl⟩
              · rw [hcs] at ih2
                exact ih2 l hl
      · have hrw : readlines (x :: cs) =
            match readlines cs with
            | [] => [[x]]
            | l :: ls => (x :: l) :: ls := by
          simp [readlines, hx]
        cases hcs : readlines cs with
        | nil =>
            rw [hcs] at hrw
            rw [hrw]
            refine ⟨fun l hl => ?_, fun l hl => by simp at hl⟩
            rcases List.mem_cons.1 hl with rfl | hl
            · exact Or.inr ⟨by simp [Ne.symm hx], by simp⟩
            · simp at hl
        | cons y ys =>
            rw [hcs] at hrw
            rw [hrw]
            have hy : IsLineElem y := ih1 y (by rw [hcs]; exact List.mem_cons_self y ys)
            constructor
            · intro l hl
              rcases List.mem_cons.1 hl with rfl | hl
              · exact isLineElem_cons x y hx hy
              · exact ih1 l (by rw [hcs]; exact List.mem_cons_of_mem _ hl)
            · intro l hl
              cases hys : ys with
              | nil => rw [hys] at hl; simp at hl
              | cons z zs =>
                  rw [hys, List.dropLast_cons_of_ne_nil (by simp)] at hl
                  rw [hcs, hys] at ih2
                  rw [List.dropLast_cons_of_ne_nil (by simp)] at ih2
                  rcases List.mem_cons.1 hl with rfl | hl
                  · have hyNL : IsNLLine y :=
                      ih2 y (List.mem_cons_self _ _)
                    exact isNLLine_cons x y hx hyNL
                  · exact ih2 l (List.mem_cons_of_mem _ hl)

theorem mem_of_getLast?_eq (l : Chars) (a : Char) (h : l.getLast? = some a) :
    a ∈ l := by
  rcases l.eq_nil_or_concat with rfl | ⟨b, c, rfl⟩
  · simp at h
  · rw [List.concat_eq_append] at h ⊢
    rw [List.getLast?_concat] at h
    simp [Option.some.inj h]

theorem readlines_isNLLine_of_endsNL (c : Chars) (h : endsNL c) :
    ∀ l ∈ readlines c, IsNLLine l := by
  intro l hl
  rcases h with rfl | h
  · simp [readlines] at hl
  rcases (readlines c).eq_nil_or_concat with hnil | ⟨L, last, hconcat⟩
  · rw [hnil] at hl; simp at hl
  rw [List.concat_eq_append] at hconcat
  rw [hconcat] at hl
  rcases List.mem_append.1 hl with hl | hl
  · have := (readlines_struct c).2 l
    rw [hconcat, List.dropLast_concat] at this
    exact this hl
  · have hlast : l = last := by simpa using hl
    subst hlast
    have helem : IsLineElem l := by
      have := (readlines_struct c).1 l
      rw [hconcat] at this
      exact this (List.mem_append.2 (Or.inr (by simp)))
    rcases helem with hNL | ⟨hnl, hne⟩
    · exact hNL
    · exfalso
      have hc : (readlines c).flatten = c := flatten_readlines c
      rw [hconcat] at hc
      have hlast2 : c.getLast? = l.getLast? := by
        conv_lhs => rw [← hc]
        rw [List.flatten_append, List.flatten_cons, List.flatten_nil,
          List.append_nil]
        exact List.getLast?_append_of_ne_nil _ hne
      rw [h] at hlast2
      exact hnl (mem_of_getLast?_eq l '\n' hlast2.symm)

/-! ### Facts about `pattern`, `declares` and `hasMarker` -/

theorem isPrefixOf_append_self (p x : Chars) : p.isPrefixOf (p ++ x) = true := by
  induction p with
  | nil => simp [List.isPrefixOf]
  | cons a as ih => simp [List.isPrefixOf, ih]

theorem isSubstr_of_isPrefixOf (s l : Chars) (h : s.isPrefixOf l = true) :
    isSubstr s l = true := by
  cases l with
  | nil =>
      cases s with
      | nil => rfl
      | cons a as => simp [List.isPrefixOf] at h
  | cons c cs => simp [isSubstr, h]

theorem stripRight_append (a b : Chars) :
    stripRight (a ++ b) =
      if stripRight b = [] then stripRight a else a ++ stripRight b := by
  unfold stripRight
  rw [List.reverse_append, stripLeft_append]
  by_cases h : stripLeft b.reverse = []
  · rw [if_pos h, if_pos (by simp [h])]
  · rw [if_neg h, if_neg (by simp [h])]
    simp

theorem stripRight_concat_of_nonspace (a : Chars) (c : Char)
    (h : isSpaceChar c = false) : stripRight (a ++ [c]) = a ++ [c] := by
  unfold stripRight
  rw [List.reverse_append]
  simp only [List.reverse_cons, List.reverse_nil, List.nil_append,
    List.singleton_append]
  rw [show stripLeft (c :: a.reverse) = c :: a.reverse by simp [stripLeft, h]]
  simp

theorem stripRight_pattern (name : Chars) :
    stripRight (pattern name) = pattern name :=
  stripRight_concat_of_nonspace ("export ".data ++ name) '=' (by decide)

theorem strip_pattern_append (name s : Chars) :
    strip (pattern name ++ s) = pattern name ++ stripRight s := by
  unfold strip
  rw [show stripLeft (pattern name ++ s) = pattern name ++ s from rfl,
    stripRight_append]
  by_cases h : stripRight s = []
  · rw [if_pos h, h, List.append_nil, stripRight_pattern]
  · rw [if_neg h]

theorem declares_exportLine (name value : Chars) :
    declares name (exportLine name value) = true := by
  unfold declares exportLine
  rw [List.append_assoc, strip_pattern_append, isPrefixOf_append_self]

theorem declares_chomp (name l : Chars) :
    declares name (chomp l) = declares name l := by
  unfold declares
  rw [strip_chomp]

theorem declares_blank (name : Chars) : declares name ['\n'] = false := rfl

theorem declares_comment (name : Chars) : declares name commentLine = false := by
  unfold declares commentLine
  rw [strip_concat_newline]
  rfl

theorem chomp_comment : chomp commentLine = markerText :=
  chomp_concat_newline markerText

theorem hasMarker_comment : hasMarker commentLine = true :=
  isSubstr_of_isPrefixOf _ _ (isPrefixOf_append_self markerText ['\n'])

theorem hasMarker_of_chomp_eq_marker (l : Chars) (h : chomp l = markerText) :
    hasMarker l = true := by
  rcases chomp_eq_or l with heq | heq
  · rw [← heq, h]
    exact isSubstr_of_isPrefixOf _ _ (by decide)
  · rw [heq, h]
    exact hasMarker_comment

theorem pattern_append_head (name value : Chars) :
    (pattern name ++ value).head? = some 'e' := rfl

theorem exportText_ne_marker (name value : Chars) :
    pattern name ++ value ≠ markerText := by
  intro h
  have h2 : some 'e' = some '#' := by
    rw [← pattern_append_head name value, h]
    rfl
  simp at h2

theorem chomp_exportLine (name value : Chars) :
    chomp (exportLine name value) = pattern name ++ value :=
  chomp_concat_newline (pattern name ++ value)

theorem newline_not_mem_pattern (name : Chars) (hn : '\n' ∉ name) :
    '\n' ∉ pattern name := by
  unfold pattern
  intro h
  rcases List.mem_append.1 h with h | h
  · rcases List.mem_append.1 h with h | h
    · revert h; decide
    · exact hn h
  · revert h
    decide

theorem readlines_exportLine (name value : Chars) (hn : '\n' ∉ name)
    (hv : '\n' ∉ value) :
    readlines (exportLine name value) = [exportLine name value] :=
  readlines_concat_newline (pattern name ++ value) (by
    intro h
    rcases List.mem_append.1 h with h | h
    · exact newline_not_mem_pattern name hn h
    · exact hv h)

/-! ### The content and line structure `set_env_var` writes -/

theorem set_env_var_newContent (w : World) (name value : Chars)
    (hw : w.writeOk = true) (hn : name ≠ []) :
    (set_env_var w name value).newContent =
      ((get_shell_config_content w).filter (fun l => !declares name l)).flatten ++
        ((if ((get_shell_config_content w).filter
              (fun l => !declares name l)).any hasMarker = true
          then [] else '\n' :: commentLine) ++ exportLine name value) := by
  unfold set_env_var
  rw [if_neg hn]
  by_cases hm : ((get_shell_config_content w).filter
      (fun l => !declares name l)).any hasMarker = true
  · simp [hw, hm, List.flatten_append]
  · simp [hw, hm, List.flatten_append]

theorem set_env_var_flags (w : World) (name value : Chars)
    (hw : w.writeOk = true) (hn : name ≠ []) :
    (set_env_var w name value).success = true ∧
      (set_env_var w name value).wrote = true := by
  unfold set_env_var
  rw [if_neg hn]
  simp [hw]

theorem endsNL_append_exportLine (a name value : Chars) :
    endsNL (a ++ exportLine name value) := by
  right
  rw [show a ++ exportLine name value = (a ++ (pattern name ++ value)) ++ ['\n'] by
    simp [exportLine]]
  exact List.getLast?_concat _

theorem set_env_var_endsNL (w : World) (name value : Chars)
    (hw : w.writeOk = true) (hn : name ≠ []) :
    endsNL (set_env_var w name value).newContent := by
  rw [set_env_var_newContent w name value hw hn, ← List.append_assoc]
  exact endsNL_append_exportLine _ name value

theorem readlines_markerPart (name value : Chars) :
    readlines (('\n' :: commentLine) ++ exportLine name value) =
      [['\n'], commentLine] ++ readlines (exportLine name value) := by
  rw [show ('\n' :: commentLine) ++ exportLine name value =
      '\n' :: (commentLine ++ exportLine name value) from rfl]
  rw [show readlines ('\n' :: (commentLine ++ exportLine name value)) =
      ['\n'] :: readlines (commentLine ++ exportLine name value) from by
    simp [readlines]]
  rw [show commentLine ++ exportLine name value =
      markerText ++ '\n' :: exportLine name value from by simp [commentLine]]
  rw [readlines_line_append markerText _ (by decide)]
  simp [commentLine]

theorem set_env_var_readlines (w : World) (name value : Chars)
    (hw : w.writeOk = true) (hn : name ≠ [])
    (hend : endsNL (effContent w)) :
    readlines (set_env_var w name value).newContent =
      (get_shell_config_content w).filter (fun l => !declares name l) ++
        ((if ((get_shell_config_content w).filter
              (fun l => !declares name l)).any hasMarker = true
          then [] else [['\n'], commentLine]) ++
          readlines (exportLine name value)) := by
  have hNL : ∀ l ∈ (get_shell_config_content w).filter (fun l => !declares name l),
      IsNLLine l := fun l hl =>
    readlines_isNLLine_of_endsNL _ hend l (List.mem_of_mem_filter hl)
  rw [set_env_var_newContent w name value hw hn]
  by_cases hm : ((get_shell_config_content w).filter
      (fun l => !declares name l)).any hasMarker = true
  · rw [if_pos hm, if_pos hm]
    rw [readlines_flatten_append _ _ hNL]
    simp
  · rw [if_neg hm, if_neg hm]
    rw [readlines_flatten_append _ _ hNL, readlines_markerPart]

/-! ### Bookkeeping for chained `set_env_var` calls -/

theorem stepSet_readOk (w : World) (nv : Chars × Chars) :
    (stepSet w nv).readOk = w.readOk := rfl

theorem stepSet_writeOk (w : World) (nv : Chars × Chars) :
    (stepSet w nv).writeOk = w.writeOk := rfl

theorem stepSet_content (w : World) (nv : Chars × Chars) :
    (stepSet w nv).content = (set_env_var w nv.1 nv.2).newContent := rfl

theorem stepSet_fileExists (w : World) (nv : Chars × Chars)
    (hw : w.writeOk = true) (hn : nv.1 ≠ []) :
    (stepSet w nv).fileExists = true := by
  have hwr : (set_env_var w nv.1 nv.2).wrote = true :=
    (set_env_var_flags w nv.1 nv.2 hw hn).2
  simp [stepSet, hwr]

theorem effContent_stepSet (w : World) (nv : Chars × Chars)
    (hr : w.readOk = true) (hw : w.writeOk = true) (hn : nv.1 ≠ []) :
    effContent (stepSet w nv) = (set_env_var w nv.1 nv.2).newContent := by
  unfold effContent
  rw [stepSet_fileExists w nv hw hn, stepSet_readOk, hr, stepSet_content]
  simp

/-! ### Counting declaring lines in the produced text -/

theorem filter_declares_lineTexts (name c : Chars) :
    (lineTexts c).filter (fun t => declares name t) =
      ((readlines c).filter (fun l => declares name l)).map chomp := by
  unfold lineTexts
  rw [List.filter_map]
  congr 1
  apply List.filter_congr
  intro l _
  simp [Function.comp, declares_chomp]

theorem filter_declares_of_kept (name : Chars) (L : List Chars) :
    (L.filter (fun l => !declares name l)).filter
      (fun l => declares name l) = [] := by
  induction L with
  | nil => rfl
  | cons x xs ih =>
      by_cases hx : declares name x = true
      · simp [List.filter_cons, hx, ih]
      · simp [List.filter_cons, hx, ih]

/-- C1 (amended): for a non-empty `name` with no newline and a second value
`v2` with no newline, calling `AddOrUpdate(name, v1)` and then
`AddOrUpdate(name, v2)` on any fault-free world leaves exactly one line
whose stripped text starts with `export name=`, and that line is
`export name=v2`. -/
theorem claim_C1 (w : World) (name v1 v2 : Chars)
    (hr : w.readOk = true) (hw : w.writeOk = true)
    (hn : name ≠ []) (hn2 : '\n' ∉ name) (hv2 : '\n' ∉ v2) :
    (lineTexts (stepSet (stepSet w (name, v1)) (name, v2)).content).filter
      (fun t => declares name t) = [pattern name ++ v2] := by
  have hr1 : (stepSet w (name, v1)).readOk = true := by
    rw [stepSet_readOk]; exact hr
  have hww1 : (stepSet w (name, v1)).writeOk = true := by
    rw [stepSet_writeOk]; exact hw
  have hend1 : endsNL (effContent (stepSet w (name, v1))) := by
    rw [effContent_stepSet w (name, v1) hr hw hn]
    exact set_env_var_endsNL w name v1 hw hn
  rw [stepSet_content, filter_declares_lineTexts,
    set_env_var_readlines _ name v2 hww1 hn hend1,
    readlines_exportLine name v2 hn2 hv2]
  by_cases hm : ((get_shell_config_content (stepSet w (name, v1))).filter
      (fun l => !declares name l)).any hasMarker = true
  · rw [if_pos hm]
    simp [List.filter_append, filter_declares_of_kept, declares_exportLine,
      chomp_exportLine]
  · rw [if_neg hm]
    simp [List.filter_append, filter_declares_of_kept, declares_blank,
      declares_comment, declares_exportLine, chomp_exportLine,
      List.filter_cons]

/-- C1 witness: a concrete run of the amended claim. -/
theorem claim_C1_witness :
    (lineTexts (stepSet (stepSet (okWorld []) ("A".data, "1".data))
        ("A".data, "2".data)).content).filter
      (fun t => declares "A".data t) = [pattern "A".data ++ "2".data] :=
  claim_C1 (okWorld []) "A".data "1".data "2".data rfl rfl (by decide)
    (by decide) (by decide)

/-- C1 counterexample: with `v2 = "0\nexport A=1"` (a value containing a
line terminator), the second `AddOrUpdate` leaves two lines declaring `A`,
not one, so the claim fails for arbitrary values. -/
theorem claim_C1_counterexample :
    ((lineTexts (stepSet (stepSet (okWorld []) ("A".data, "1".data))
        ("A".data, "0\nexport A=1".data)).content).filter
      (fun t => declares "A".data t)).length = 2 := by
  decide

/-! ### Counting marker lines -/

theorem readlines_append_terminated (s r : Chars) :
    readlines (s ++ '\n' :: r) = readlines (s ++ ['\n']) ++ readlines r := by
  induction s with
  | nil => simp [readlines]
  | cons c cs ih =>
      by_cases hc : c = '\n'
      · subst hc
        have lhs : readlines (('\n' :: cs) ++ '\n' :: r) =
            ['\n'] :: readlines (cs ++ '\n' :: r) := by simp [readlines]
        have rhs : readlines (('\n' :: cs) ++ ['\n']) =
            ['\n'] :: readlines (cs ++ ['\n']) := by simp [readlines]
        rw [lhs, rhs, ih, List.cons_append]
      · simp only [List.cons_append, readlines, if_neg hc, List.append_eq]
        rw [ih]
        have hne : readlines (cs ++ ['\n']) ≠ [] := by
          rw [Ne, readlines_eq_nil_iff]
          simp
        cases hcs : readlines (cs ++ ['\n']) with
        | nil => exact absurd hcs hne
        | cons l ls => simp

theorem count_marker_lineTexts (c : Chars) :
    (lineTexts c).count markerText =
      (readlines c).countP (fun l => chomp l == markerText) := by
  unfold lineTexts
  rw [List.count, List.countP_map]
  rfl

theorem chomp_beq_marker_false (l : Chars) (h : hasMarker l = false) :
    (chomp l == markerText) = false := by
  cases hbeq : (chomp l == markerText) with
  | false => rfl
  | true =>
      rw [hasMarker_of_chomp_eq_marker l (eq_of_beq hbeq)] at h
      exact absurd h (by simp)

theorem exportLine_chomp_beq_marker (name value : Chars) :
    (chomp (exportLine name value) == markerText) = false := by
  rw [chomp_exportLine]
  exact beq_eq_false_iff_ne.2 (exportText_ne_marker name value)

theorem exists_comment_elem (c : Chars)
    (h1 : (lineTexts c).count markerText = 1) (h2 : endsNL c) :
    commentLine ∈ readlines c := by
  have hmem : markerText ∈ lineTexts c := by
    by_contra hnot
    rw [List.count_eq_zero.2 hnot] at h1
    simp at h1
  obtain ⟨l, hl, hchomp⟩ := List.mem_map.1 hmem
  obtain ⟨m, hm, rfl⟩ := readlines_isNLLine_of_endsNL c h2 l hl
  rw [chomp_concat_newline] at hchomp
  subst hchomp
  exact hl

theorem filter_dropLast_isNLLine (p : Chars → Bool) (L : List Chars)
    (h1 : ∀ l ∈ L.dropLast, IsNLLine l) :
    ∀ l ∈ (L.filter p).dropLast, IsNLLine l := by
  induction L with
  | nil => simp
  | cons a L' ih =>
      have hL' : ∀ l ∈ L'.dropLast, IsNLLine l := by
        intro l hl
        cases L' with
        | nil => simp at hl
        | cons b bs =>
            apply h1
            rw [List.dropLast_cons_of_ne_nil (by simp)]
            exact List.mem_cons_of_mem _ hl
      by_cases hp : p a = true
      · rw [List.filter_cons_of_pos hp]
        intro l hl
        cases hF : L'.filter p with
        | nil => rw [hF] at hl; simp at hl
        | cons f fs =>
            rw [hF, List.dropLast_cons_of_ne_nil (by simp)] at hl
            rcases List.mem_cons.1 hl with rfl | hl
            · have hL'ne : L' ≠ [] := by
                intro h0
                rw [h0] at hF
                simp at hF
              apply h1
              cases L' with
              | nil => exact absurd rfl hL'ne
              | cons b bs =>
                  rw [List.dropLast_cons_of_ne_nil (by simp)]
                  exact List.mem_cons_self _ _
            · rw [← hF] at hl
              exact ih hL' l hl
      · rw [List.filter_cons_of_neg (by simpa using hp)]
        exact ih hL'

theorem countP_marker_flatten_terminated (F : List Chars)
    (h1 : ∀ l ∈ F.dropLast, IsNLLine l) (h2 : ∀ l ∈ F, IsLineElem l)
    (hml : ∀ l ∈ F, hasMarker l = false) :
    (readlines (F.flatten ++ ['\n'])).countP
      (fun l => chomp l == markerText) = 0 := by
  rcases F.eq_nil_or_concat with rfl | ⟨init, last, hcat⟩
  · decide
  rw [List.concat_eq_append] at hcat
  subst hcat
  have hinitNL : ∀ l ∈ init, IsNLLine l := by
    intro l hl
    apply h1
    rw [List.dropLast_concat]
    exact hl
  rw [List.flatten_append, List.flatten_cons, List.flatten_nil,
    List.append_nil, List.append_assoc]
  rw [readlines_flatten_append _ _ hinitNL, List.countP_append]
  have hinit0 : init.countP (fun l => chomp l == markerText) = 0 := by
    apply List.countP_eq_zero.2
    intro l hl
    simp [chomp_beq_marker_false l
      (hml l (List.mem_append.2 (Or.inl hl)))]
  rw [hinit0]
  have hlastml : hasMarker last = false :=
    hml last (List.mem_append.2 (Or.inr (by simp)))
  have hlastElem : IsLineElem last :=
    h2 last (List.mem_append.2 (Or.inr (by simp)))
  have hlast0 : (readlines (last ++ ['\n'])).countP
      (fun l => chomp l == markerText) = 0 := by
    rcases hlastElem with ⟨m, hm, rfl⟩ | ⟨hnl, hne⟩
    · rw [List.append_assoc, List.singleton_append,
        readlines_line_append m _ hm,
        show readlines ['\n'] = [['\n']] from by decide]
      simp only [List.countP_cons, List.countP_nil]
      rw [chomp_beq_marker_false _ hlastml]
      decide
    · rw [readlines_concat_newline last hnl]
      simp only [List.countP_cons, List.countP_nil, chomp_concat_newline]
      cases hbeq : (last == markerText) with
      | false => simp
      | true =>
          have hch : chomp last = last := by
            unfold chomp
            rw [if_neg (fun hgl => hnl (mem_of_getLast?_eq last '\n' hgl))]
          have hmk : hasMarker last = true :=
            hasMarker_of_chomp_eq_marker last (hch.trans (eq_of_beq hbeq))
          rw [hmk] at hlastml
          exact absurd hlastml (by simp)
  omega

theorem effContent_of_flags (w : World) (hfe : w.fileExists = true)
    (hr : w.readOk = true) : effContent w = w.content := by
  unfold effContent
  rw [hfe, hr]
  rfl

theorem markerInv_base (w : World) (nv : Chars × Chars)
    (hw : w.writeOk = true) (hn : nv.1 ≠ []) (hn2 : '\n' ∉ nv.1)
    (hv : '\n' ∉ nv.2)
    (hml : ∀ l ∈ get_shell_config_content w, hasMarker l = false) :
    (lineTexts (stepSet w nv).content).count markerText = 1 ∧
      endsNL (stepSet w nv).content := by
  have hmlF : ∀ l ∈ (get_shell_config_content w).filter
      (fun l => !declares nv.1 l), hasMarker l = false := fun l hl =>
    hml l (List.mem_of_mem_filter hl)
  constructor
  · rw [stepSet_content, count_marker_lineTexts,
      set_env_var_newContent w nv.1 nv.2 hw hn]
    have hany : ((get_shell_config_content w).filter
        (fun l => !declares nv.1 l)).any hasMarker = false := by
      cases h : ((get_shell_config_content w).filter
          (fun l => !declares nv.1 l)).any hasMarker with
      | false => rfl
      | true =>
          obtain ⟨l, hl, hml2⟩ := List.any_eq_true.1 h
          rw [hmlF l hl] at hml2
          exact absurd hml2 (by simp)
    rw [if_neg (by rw [hany]; simp)]
    rw [show get_shell_config_content w = readlines (effContent w) from rfl]
    rw [show ('\n' :: commentLine) ++ exportLine nv.1 nv.2 =
        '\n' :: (commentLine ++ exportLine nv.1 nv.2) from rfl,
      readlines_append_terminated, List.countP_append]
    have hstruct := readlines_struct (effContent w)
    rw [countP_marker_flatten_terminated _
        (filter_dropLast_isNLLine _ _ hstruct.2)
        (fun l hl => hstruct.1 l (List.mem_of_mem_filter hl)) hmlF]
    rw [show commentLine ++ exportLine nv.1 nv.2 =
        markerText ++ '\n' :: exportLine nv.1 nv.2 from by simp [commentLine],
      readlines_line_append markerText _ (by decide),
      readlines_exportLine nv.1 nv.2 hn2 hv]
    simp only [List.countP_cons, List.countP_nil]
    rw [exportLine_chomp_beq_marker]
    rw [show ((chomp (markerText ++ ['\n']) == markerText)) = true from by
      rw [chomp_concat_newline]; simp]
    simp
  · rw [stepSet_content]
    exact set_env_var_endsNL w nv.1 nv.2 hw hn

theorem markerInv_step (w : World) (nv : Chars × Chars)
    (hr : w.readOk = true) (hw : w.writeOk = true)
    (hn : nv.1 ≠ []) (hn2 : '\n' ∉ nv.1) (hv : '\n' ∉ nv.2)
    (hfe : w.fileExists = true)
    (hinv : (lineTexts w.content).count markerText = 1 ∧ endsNL w.content) :
    (lineTexts (stepSet w nv).content).count markerText = 1 ∧
      endsNL (stepSet w nv).content := by
  have heff : effContent w = w.content := effContent_of_flags w hfe hr
  have hend : endsNL (effContent w) := by rw [heff]; exact hinv.2
  have hcomment : commentLine ∈ get_shell_config_content w := by
    unfold get_shell_config_content
    rw [heff]
    exact exists_comment_elem w.content hinv.1 hinv.2
  have hcF : commentLine ∈ (get_shell_config_content w).filter
      (fun l => !declares nv.1 l) :=
    List.mem_filter.2 ⟨hcomment, by simp [declares_comment]⟩
  have hany : ((get_shell_config_content w).filter
      (fun l => !declares nv.1 l)).any hasMarker = true :=
    List.any_eq_true.2 ⟨commentLine, hcF, hasMarker_comment⟩
  constructor
  · rw [stepSet_content, count_marker_lineTexts,
      set_env_var_readlines w nv.1 nv.2 hw hn hend, if_pos hany,
      readlines_exportLine nv.1 nv.2 hn2 hv, List.nil_append,
      List.countP_append]
    have hL : (get_shell_config_content w).countP
        (fun l => chomp l == markerText) = 1 := by
      calc (get_shell_config_content w).countP (fun l => chomp l == markerText)
          = (readlines w.content).countP (fun l => chomp l == markerText) := by
            rw [show get_shell_config_content w = readlines (effContent w)
              from rfl, heff]
        _ = (lineTexts w.content).count markerText :=
            (count_marker_lineTexts w.content).symm
        _ = 1 := hinv.1
    have hle : ((get_shell_config_content w).filter
        (fun l => !declares nv.1 l)).countP
          (fun l => chomp l == markerText) ≤ 1 := by
      rw [← hL]
      exact (List.filter_sublist _).countP_le _
    have hge : 0 < ((get_shell_config_content w).filter
        (fun l => !declares nv.1 l)).countP
          (fun l => chomp l == markerText) := by
      rw [List.countP_pos_iff]
      exact ⟨commentLine, hcF, by rw [chomp_comment]; simp⟩
    simp only [List.countP_cons, List.countP_nil]
    rw [exportLine_chomp_beq_marker]
    simp only [Bool.false_eq_true, if_false, Nat.add_zero]
    omega
  · rw [stepSet_content]
    exact set_env_var_endsNL w nv.1 nv.2 hw hn

theorem runSets_markerInv (calls : List (Chars × Chars)) (w : World)
    (hr : w.readOk = true) (hw : w.writeOk = true) (hfe : w.fileExists = true)
    (hall : ∀ nv ∈ calls, nv.1 ≠ [] ∧ '\n' ∉ nv.1 ∧ '\n' ∉ nv.2)
    (hinv : (lineTexts w.content).count markerText = 1 ∧ endsNL w.content) :
    (lineTexts (runSets w calls).content).count markerText = 1 := by
  induction calls generalizing w with
  | nil => exact hinv.1
  | cons nv rest ih =>
      obtain ⟨hn, hn2, hv⟩ := hall nv (List.mem_cons_self _ _)
      have hstep := markerInv_step w nv hr hw hn hn2 hv hfe hinv
      exact ih (stepSet w nv) (by rw [stepSet_readOk]; exact hr)
        (by rw [stepSet_writeOk]; exact hw) (stepSet_fileExists w nv hw hn)
        (fun p hp => hall p (List.mem_cons_of_mem _ hp)) hstep

/-- C2 (amended): starting from a world whose config file has no line
containing the sentinel text, any nonempty sequence of `AddOrUpdate`
calls with non-empty, newline-free names and newline-free values leaves
exactly one line equal to the sentinel `# Added by ConfigureMacKeys`. -/
theorem claim_C2 (w : World) (nv : Chars × Chars) (rest : List (Chars × Chars))
    (hr : w.readOk = true) (hw : w.writeOk = true)
    (hall : ∀ p ∈ nv :: rest, p.1 ≠ [] ∧ '\n' ∉ p.1 ∧ '\n' ∉ p.2)
    (hml : ∀ l ∈ get_shell_config_content w, hasMarker l = false) :
    (lineTexts (runSets w (nv :: rest)).content).count markerText = 1 := by
  obtain ⟨hn, hn2, hv⟩ := hall nv (List.mem_cons_self _ _)
  have hbase := markerInv_base w nv hw hn hn2 hv hml
  show (lineTexts (runSets (stepSet w nv) rest).content).count markerText = 1
  exact runSets_markerInv rest (stepSet w nv) (by rw [stepSet_readOk]; exact hr)
    (by rw [stepSet_writeOk]; exact hw) (stepSet_fileExists w nv hw hn)
    (fun p hp => hall p (List.mem_cons_of_mem _ hp)) hbase

/-- C2 witness: two concrete calls on an initially absent file. -/
theorem claim_C2_witness :
    (lineTexts (runSets absentWorld
        [("A".data, "1".data), ("B".data, "2".data)]).content).count
      markerText = 1 :=
  claim_C2 absentWorld ("A".data, "1".data) [("B".data, "2".data)] rfl rfl
    (by decide) (by decide)

/-- C2 counterexample: a file whose single line merely CONTAINS the sentinel
text (it is not a MarkerComment line, so the file is markerless in the
claim's sense) makes `set_env_var` skip the insertion, leaving zero
MarkerComment lines after one `AddOrUpdate`, not one. -/
theorem claim_C2_counterexample :
    (lineTexts (okWorld "x# Added by ConfigureMacKeys\n".data).content).count
        markerText = 0 ∧
      (lineTexts (runSets (okWorld "x# Added by ConfigureMacKeys\n".data)
          [("A".data, "1".data)]).content).count markerText = 0 := by
  constructor
  · decide
  · decide

theorem filter_not_declares_lineTexts (name c : Chars) :
    (lineTexts c).filter (fun t => !declares name t) =
      ((readlines c).filter (fun l => !declares name l)).map chomp := by
  unfold lineTexts
  rw [List.filter_map]
  congr 1
  apply List.filter_congr
  intro l _
  simp [Function.comp, declares_chomp]

theorem chomp_blank : chomp (['\n'] : Chars) = [] := by decide

theorem declares_pattern_append (name v : Chars) :
    declares name (pattern name ++ v) = true := by
  unfold declares
  rw [strip_pattern_append, isPrefixOf_append_self]

theorem count_export_map_chomp_kept (name value : Chars) (L : List Chars) :
    ((L.filter (fun l => !declares name l)).map chomp).count
      (pattern name ++ value) = 0 := by
  rw [List.count_eq_zero]
  intro hmem
  obtain ⟨l, hl, heq⟩ := List.mem_map.1 hmem
  have hkeep := (List.mem_filter.1 hl).2
  have : declares name l = true := by
    rw [← declares_chomp, heq]
    exact declares_pattern_append name value
  rw [this] at hkeep
  exact absurd hkeep (by simp)

/-- C4 (amended): for a prior content that is empty or ends with a line
terminator, a non-empty newline-free `name` and a newline-free `value`,
`AddOrUpdate(name, value)` yields a file whose lines contain
`export name=value` exactly once, and whose lines start with exactly the
pre-existing non-declaring lines, verbatim and in order. -/
theorem claim_C4 (w : World) (name value : Chars)
    (_hr : w.readOk = true) (hw : w.writeOk = true)
    (hn : name ≠ []) (hn2 : '\n' ∉ name) (hv : '\n' ∉ value)
    (hend : endsNL (effContent w)) :
    (lineTexts (set_env_var w name value).newContent).count
        (pattern name ++ value) = 1 ∧
      ∃ t, lineTexts (set_env_var w name value).newContent =
        (lineTexts (effContent w)).filter (fun l => !declares name l) ++ t := by
  have hlines : lineTexts (set_env_var w name value).newContent =
      ((get_shell_config_content w).filter (fun l => !declares name l)).map
        chomp ++
        ((if ((get_shell_config_content w).filter
              (fun l => !declares name l)).any hasMarker = true
          then [] else [[], markerText]) ++ [pattern name ++ value]) := by
    unfold lineTexts
    rw [set_env_var_readlines w name value hw hn hend,
      readlines_exportLine name value hn2 hv, List.map_append,
      List.map_append]
    by_cases hm : ((get_shell_config_content w).filter
        (fun l => !declares name l)).any hasMarker = true
    · rw [if_pos hm, if_pos hm]
      simp [chomp_exportLine]
    · rw [if_neg hm, if_neg hm]
      simp [chomp_exportLine, chomp_comment, chomp_blank]
  constructor
  · rw [hlines, List.count_append, count_export_map_chomp_kept]
    by_cases hm : ((get_shell_config_content w).filter
        (fun l => !declares name l)).any hasMarker = true
    · rw [if_pos hm]
      simp [List.count_cons]
    · rw [if_neg hm]
      simp only [List.nil_append, List.count_append, List.count_cons,
        List.count_nil]
      rw [show (([] : Chars) == pattern name ++ value) = false from rfl,
        beq_eq_false_iff_ne.2 (Ne.symm (exportText_ne_marker name value))]
      simp
  · refine ⟨(if ((get_shell_config_content w).filter
        (fun l => !declares name l)).any hasMarker = true
      then [] else [[], markerText]) ++ [pattern name ++ value], ?_⟩
    rw [hlines, filter_not_declares_lineTexts]
    rfl

/-- C4 witness: a concrete run of the amended claim. -/
theorem claim_C4_witness :
    (lineTexts (set_env_var (okWorld "export B=2\n".data)
        "A".data "1".data).newContent).count
        (pattern "A".data ++ "1".data) = 1 ∧
      ∃ t, lineTexts (set_env_var (okWorld "export B=2\n".data)
          "A".data "1".data).newContent =
        (lineTexts (effContent (okWorld "export B=2\n".data))).filter
          (fun l => !declares "A".data l) ++ t :=
  claim_C4 (okWorld "export B=2\n".data) "A".data "1".data rfl rfl
    (by decide) (by decide) (by decide) (by decide)

/-- C4 counterexample: a prior content whose final line has no terminator
(`"# Added by ConfigureMacKeys\nfoo"`) makes the appended export line merge
with it, so the line `export A=1` appears zero times, not once, and the
pre-existing line `foo` is not preserved. -/
theorem claim_C4_counterexample :
    (lineTexts (set_env_var (okWorld "# Added by ConfigureMacKeys\nfoo".data)
        "A".data "1".data).newContent).count
      (pattern "A".data ++ "1".data) = 0 := by
  decide

/-- C6: on a file containing `export FOO=1\nexport BAR=2\n`,
`AddOrUpdate("FOO", "9")` writes exactly
`export BAR=2\n\n# Added by ConfigureMacKeys\nexport FOO=9\n`: the
unrelated line first, then a blank line, the MarkerComment line, and the
new declaration last with a trailing terminator. -/
theorem claim_C6 :
    (set_env_var (okWorld "export FOO=1\nexport BAR=2\n".data)
        "FOO".data "9".data).newContent =
      "export BAR=2\n\n# Added by ConfigureMacKeys\nexport FOO=9\n".data ∧
      lineTexts (set_env_var (okWorld "export FOO=1\nexport BAR=2\n".data)
          "FOO".data "9".data).newContent =
        ["export BAR=2".data, [], markerText, "export FOO=9".data] := by
  constructor
  · decide
  · decide

/-! ### Facts about `remove_env_var` -/

theorem readlines_flatten_eq (L : List Chars)
    (h1 : ∀ l ∈ L.dropLast, IsNLLine l) (h2 : ∀ l ∈ L, IsLineElem l) :
    readlines L.flatten = L := by
  rcases L.eq_nil_or_concat with rfl | ⟨init, last, hcat⟩
  · simp [readlines]
  rw [List.concat_eq_append] at hcat
  subst hcat
  have hinitNL : ∀ l ∈ init, IsNLLine l := by
    intro l hl
    apply h1
    rw [List.dropLast_concat]
    exact hl
  rw [List.flatten_append, List.flatten_cons, List.flatten_nil,
    List.append_nil, readlines_flatten_append _ _ hinitNL,
    readlines_of_isLineElem last
      (h2 last (List.mem_append.2 (Or.inr (by simp))))]

theorem countP_declares_lineTexts (name c : Chars) :
    (lineTexts c).countP (fun t => declares name t) =
      (readlines c).countP (fun l => declares name l) := by
  unfold lineTexts
  rw [List.countP_map]
  apply List.countP_congr
  intro l _
  simp [Function.comp, declares_chomp]

theorem countP_not_add (p : Chars → Bool) (L : List Chars) :
    L.countP (fun a => !p a) + L.countP p = L.length := by
  induction L with
  | nil => rfl
  | cons a as ih =>
      by_cases h : p a = true
      · simp [List.countP_cons, h]
        omega
      · simp only [Bool.not_eq_true] at h
        simp [List.countP_cons, h]
        omega

theorem get_shell_eq (w : World) :
    get_shell_config_content w = readlines (effContent w) := rfl

theorem countP_declares_split (name : Chars) (L : List Chars) :
    L.countP (fun l => !declares name l) +
      L.countP (fun l => declares name l) = L.length :=
  countP_not_add (fun l => declares name l) L

theorem remove_env_var_found (w : World) (name : Chars)
    (hw : w.writeOk = true) (hne : get_shell_config_content w ≠ [])
    (hlen : ((get_shell_config_content w).filter
        (fun l => !declares name l)).length ≠
      (get_shell_config_content w).length) :
    remove_env_var w name =
      { success := true, outcome := .ok, readAttempted := true,
        backupAttempted := true, wrote := true,
        newContent := ((get_shell_config_content w).filter
          (fun l => !declares name l)).flatten } := by
  simp only [remove_env_var]
  rw [if_neg hne, if_neg hlen, if_pos hw]

theorem remove_env_var_notFound (w : World) (name : Chars)
    (hne : get_shell_config_content w ≠ [])
    (hfil : (get_shell_config_content w).filter
        (fun l => !declares name l) = get_shell_config_content w) :
    remove_env_var w name =
      { success := false, outcome := .notFound, readAttempted := true,
        backupAttempted := true, wrote := false, newContent := w.content } := by
  simp only [remove_env_var]
  rw [if_neg hne, if_pos (by rw [hfil])]

/-- C3: `Remove(name)` on a file with exactly one line declaring `name`
succeeds and leaves zero such lines; on an existing non-empty file with no
such line it fails and leaves the content untouched (no write). -/
theorem claim_C3 (w : World) (name : Chars) (hw : w.writeOk = true) :
    ((lineTexts (effContent w)).countP (fun t => declares name t) = 1 →
      (remove_env_var w name).success = true ∧
        (remove_env_var w name).wrote = true ∧
        (lineTexts (remove_env_var w name).newContent).countP
          (fun t => declares name t) = 0) ∧
      (effContent w ≠ [] →
        (lineTexts (effContent w)).countP (fun t => declares name t) = 0 →
        (remove_env_var w name).success = false ∧
          (remove_env_var w name).wrote = false ∧
          (remove_env_var w name).newContent = w.content) := by
  constructor
  · intro hcnt
    rw [countP_declares_lineTexts, ← get_shell_eq] at hcnt
    have hne : get_shell_config_content w ≠ [] := by
      intro h0
      rw [h0] at hcnt
      simp at hcnt
    have hlen : ((get_shell_config_content w).filter
        (fun l => !declares name l)).length ≠
        (get_shell_config_content w).length := by
      rw [← List.countP_eq_length_filter]
      have hsplit := countP_declares_split name (get_shell_config_content w)
      have hpos : 0 < (get_shell_config_content w).length :=
        List.length_pos.2 hne
      omega
    have hrec := remove_env_var_found w name hw hne hlen
    have hnc : (remove_env_var w name).newContent =
        ((get_shell_config_content w).filter
          (fun l => !declares name l)).flatten := by
      rw [hrec]
    refine ⟨by rw [hrec], by rw [hrec], ?_⟩
    rw [hnc, countP_declares_lineTexts, get_shell_eq]
    have hstruct := readlines_struct (effContent w)
    rw [readlines_flatten_eq _
        (filter_dropLast_isNLLine _ _ hstruct.2)
        (fun l hl => hstruct.1 l (List.mem_of_mem_filter hl))]
    apply List.countP_eq_zero.2
    intro l hl
    have hkeep := (List.mem_filter.1 hl).2
    simp only [Bool.not_eq_true'] at hkeep
    simp [hkeep]
  · intro hne0 hcnt
    rw [countP_declares_lineTexts, ← get_shell_eq] at hcnt
    have hne : get_shell_config_content w ≠ [] := by
      rw [get_shell_eq, Ne, readlines_eq_nil_iff]
      exact hne0
    have hfil : (get_shell_config_content w).filter
        (fun l => !declares name l) = get_shell_config_content w := by
      apply List.filter_eq_self.2
      intro l hl
      have h0 := List.countP_eq_zero.1 hcnt l hl
      simp only [Bool.not_eq_true] at h0
      simp [h0]
    have hrec := remove_env_var_notFound w name hne hfil
    exact ⟨by rw [hrec], by rw [hrec], by rw [hrec]⟩

/-- C3 witness: both branches at concrete files. -/
theorem claim_C3_witness :
    ((remove_env_var (okWorld "export A=1\n".data) "A".data).success = true ∧
        (lineTexts (remove_env_var (okWorld "export A=1\n".data)
            "A".data).newContent).countP
          (fun t => declares "A".data t) = 0) ∧
      ((remove_env_var (okWorld "x\n".data) "A".data).success = false ∧
        (remove_env_var (okWorld "x\n".data) "A".data).wrote = false ∧
        (remove_env_var (okWorld "x\n".data) "A".data).newContent =
          (okWorld "x\n".data).content) := by
  constructor
  · have h := (claim_C3 (okWorld "export A=1\n".data) "A".data rfl).1
      (by decide)
    exact ⟨h.1, h.2.2⟩
  · exact (claim_C3 (okWorld "x\n".data) "A".data rfl).2 (by decide)
      (by decide)

/-- C7: `AddOrUpdate` with an empty name fails immediately with the
empty-name error, for any world, value and persistence mode: the file is
not read, no backup is attempted, and nothing is written. -/
theorem claim_C7 (w : World) (value : Chars) (permanent : Bool) :
    (set_env_var w [] value permanent).success = false ∧
      (set_env_var w [] value permanent).outcome = .emptyName ∧
      (set_env_var w [] value permanent).readAttempted = false ∧
      (set_env_var w [] value permanent).backupAttempted = false ∧
      (set_env_var w [] value permanent).wrote = false ∧
      (set_env_var w [] value permanent).newContent = w.content := by
  simp [set_env_var]

/-- C8: `Remove` when the file is absent, unreadable or empty fails at
once with the no-file outcome, before the backup step and without any
write. -/
theorem claim_C8 (w : World) (name : Chars)
    (h : w.fileExists = false ∨ effContent w = []) :
    (remove_env_var w name).success = false ∧
      (remove_env_var w name).outcome = .noFile ∧
      (remove_env_var w name).backupAttempted = false ∧
      (remove_env_var w name).wrote = false ∧
      (remove_env_var w name).newContent = w.content := by
  have hlines : get_shell_config_content w = [] := by
    rw [get_shell_eq, readlines_eq_nil_iff]
    rcases h with h | h
    · unfold effContent
      rw [h]
      rfl
    · exact h
  simp only [remove_env_var]
  rw [if_pos hlines]
  exact ⟨rfl, rfl, rfl, rfl, rfl⟩

/-- C8 witness: removal on an absent file. -/
theorem claim_C8_witness :
    (remove_env_var absentWorld "A".data).success = false ∧
      (remove_env_var absentWorld "A".data).outcome = .noFile ∧
      (remove_env_var absentWorld "A".data).backupAttempted = false ∧
      (remove_env_var absentWorld "A".data).wrote = false ∧
      (remove_env_var absentWorld "A".data).newContent =
        absentWorld.content :=
  claim_C8 absentWorld "A".data (Or.inl rfl)

/-- C10: `Remove("")` is not rejected as an empty-name error: unlike
`AddOrUpdate("")`, it reads the file, attempts the backup, filters with
the pattern `export =`, and on a non-empty file with no such line reports
the not-found outcome. -/
theorem claim_C10 (w : World) (v : Chars)
    (hne : effContent w ≠ [])
    (hnone : (lineTexts (effContent w)).countP
      (fun t => declares [] t) = 0) :
    (set_env_var w [] v).outcome = .emptyName ∧
      (remove_env_var w []).outcome = .notFound ∧
      (remove_env_var w []).success = false ∧
      (remove_env_var w []).readAttempted = true ∧
      (remove_env_var w []).backupAttempted = true ∧
      (remove_env_var w []).wrote = false := by
  rw [countP_declares_lineTexts, ← get_shell_eq] at hnone
  have hne0 : get_shell_config_content w ≠ [] := by
    rw [get_shell_eq, Ne, readlines_eq_nil_iff]
    exact hne
  have hfil : (get_shell_config_content w).filter
      (fun l => !declares [] l) = get_shell_config_content w := by
    apply List.filter_eq_self.2
    intro l hl
    have h0 := List.countP_eq_zero.1 hnone l hl
    simp only [Bool.not_eq_true] at h0
    simp [h0]
  have hrec := remove_env_var_notFound w [] hne0 hfil
  exact ⟨by simp [set_env_var], by rw [hrec], by rw [hrec], by rw [hrec],
    by rw [hrec], by rw [hrec]⟩

/-- C10 witness: `Remove("")` on a one-line file declaring `B`. -/
theorem claim_C10_witness :
    (set_env_var (okWorld "export B=2\n".data) [] "1".data).outcome =
        .emptyName ∧
      (remove_env_var (okWorld "export B=2\n".data) []).outcome = .notFound ∧
      (remove_env_var (okWorld "export B=2\n".data) []).success = false ∧
      (remove_env_var (okWorld "export B=2\n".data) []).readAttempted = true ∧
      (remove_env_var (okWorld "export B=2\n".data) []).backupAttempted =
        true ∧
      (remove_env_var (okWorld "export B=2\n".data) []).wrote = false :=
  claim_C10 (okWorld "export B=2\n".data) "1".data (by decide) (by decide)

/-- A world in which the config file exists but reading it raises. -/
def readFailWorld (c : Chars) : World :=
  { fileExists := true, content := c, readOk := false, backupOk := true,
    writeOk := true }

/-- C5 (code bug at `AddOrUpdate`): when the file exists but reading it
fails, `get_shell_config_content` swallows the exception and returns an
empty line list, and `set_env_var` proceeds: it reports success and
rewrites the file with only the marker and the new export line, erasing
the prior content instead of aborting.  (`remove_env_var` does stop on
the empty read, without writing.) -/
theorem claim_C5 :
    (set_env_var (readFailWorld "export B=2\n".data)
        "A".data "1".data).wrote = true ∧
      (set_env_var (readFailWorld "export B=2\n".data)
          "A".data "1".data).success = true ∧
      (set_env_var (readFailWorld "export B=2\n".data)
          "A".data "1".data).newContent =
        "\n# Added by ConfigureMacKeys\nexport A=1\n".data ∧
      (set_env_var (readFailWorld "export B=2\n".data)
          "A".data "1".data).newContent ≠
        (readFailWorld "export B=2\n".data).content ∧
      (remove_env_var (readFailWorld "export B=2\n".data) "A".data).wrote =
        false := by
  refine ⟨by decide, by decide, by decide, by decide, by decide⟩

/-! ### `list_env_vars` -/

theorem lookup_map_fst (d : String) (l : List (String × String))
    (hnd : (l.map Prod.fst).Nodup) :
    (l.map Prod.fst).map (fun k => (k, (l.lookup k).getD d)) = l := by
  induction l with
  | nil => rfl
  | cons kv t ih =>
      obtain ⟨k, v⟩ := kv
      have hk : k ∉ t.map Prod.fst := (List.nodup_cons.1 (by simpa using hnd)).1
      have hnd' : (t.map Prod.fst).Nodup :=
        (List.nodup_cons.1 (by simpa using hnd)).2
      simp only [List.map_cons]
      congr 1
      · simp [List.lookup]
      · have htail : (t.map Prod.fst).map
            (fun k' => (k', (((k, v) :: t).lookup k').getD d)) =
            (t.map Prod.fst).map (fun k' => (k', (t.lookup k').getD d)) := by
          apply List.map_congr_left
          intro a ha
          have hne : (a == k) = false :=
            beq_eq_false_iff_ne.2 (fun h => hk (h ▸ ha))
          simp [List.lookup, hne]
        rw [htail, ih hnd']

theorem list_env_pairs_spec (l : List (String × String))
    (hnd : (l.map Prod.fst).Nodup) :
    (((l.map Prod.fst).mergeSort).map
        (fun k => (k, (l.lookup k).getD ""))).Perm l ∧
      (((l.map Prod.fst).mergeSort).map
        (fun k => (k, (l.lookup k).getD ""))).Pairwise
          (fun a b => a.1 ≤ b.1) := by
  constructor
  · have hperm : ((l.map Prod.fst).mergeSort).Perm (l.map Prod.fst) :=
      List.mergeSort_perm _ _
    have hmap := hperm.map (fun k => (k, (l.lookup k).getD ""))
    rw [lookup_map_fst "" l hnd] at hmap
    exact hmap
  · have hsorted : ((l.map Prod.fst).mergeSort).Sorted (· ≤ ·) :=
      List.sorted_mergeSort' _
    rw [List.pairwise_map]
    exact hsorted

/-- C9: `List(filter)` produces exactly the environment pairs whose key
contains the filter substring case-insensitively (all pairs when no filter
is given), arranged in ascending key order. -/
theorem claim_C9 (env : List (String × String)) (filt : Option String)
    (hnd : (env.map Prod.fst).Nodup) :
    (list_env_vars env filt).Perm
        (match filt with
          | some p => env.filter (fun kv : String × String => keyMatches p kv.1)
          | none => env) ∧
      (list_env_vars env filt).Pairwise (fun a b => a.1 ≤ b.1) := by
  cases filt with
  | none =>
      have h := list_env_pairs_spec env hnd
      exact ⟨h.1, h.2⟩
  | some p =>
      have hndf : ((env.filter
          (fun kv : String × String => keyMatches p kv.1)).map
            Prod.fst).Nodup :=
        hnd.sublist ((List.filter_sublist _).map _)
      have h := list_env_pairs_spec
        (env.filter (fun kv : String × String => keyMatches p kv.1)) hndf
      exact ⟨h.1, h.2⟩

/-- C9 witness: a concrete environment snapshot with and without filter. -/
theorem claim_C9_witness :
    (list_env_vars [("PATH", "/usr"), ("HOME", "/root"), ("XPATH2", "y")]
        (some "path")).Perm
        ([("PATH", "/usr"), ("HOME", "/root"), ("XPATH2", "y")].filter
          (fun kv : String × String => keyMatches "path" kv.1)) ∧
      (list_env_vars [("PATH", "/usr"), ("HOME", "/root"), ("XPATH2", "y")]
        (some "path")).Pairwise (fun a b => a.1 ≤ b.1) :=
  claim_C9 [("PATH", "/usr"), ("HOME", "/root"), ("XPATH2", "y")]
    (some "path") (by decide)

end ConfigureMacKeys
